import Mathlib

/-!
Shallow embedding of the variance-inference front end of
`compiler/rustc_hir_analysis/src/variance/mod.rs` and of the lexically scoped
attribute handling of `compiler/rustc_lint/src/late.rs`, with theorems about
the spec's claims.

Machine-level identifiers (`DefId`, `HirId`) are modelled as `Nat`.  A
`TyCtxt` becomes an explicit record of the queries the embedded functions
consult (`generics_of`, `def_kind`, `bound_explicit_item_bounds`,
`crate_variances`).  The parent chain of a `Generics` is materialised as the
list of ancestor parameter lists (immediate parent first), which is what the
`while let Some(def_id) = generics.parent` loop of the source observes on a
well-founded parent chain.  The `crate_variances` fixpoint lives in submodules
that are not part of the shown material, so its result is an abstract field of
the context; `variances_of` only ever reads it through `.get(...)`.
-/

namespace RustcVariance

/-- `ty::Variance`. -/
inductive Variance where
  | Covariant
  | Contravariant
  | Invariant
  | Bivariant
deriving DecidableEq

/-- `ty::GenericParamDefKind` (payloads of `Type { .. }` / `Const { .. }`
are irrelevant here). -/
inductive GenericParamDefKind where
  | Lifetime
  | Ty
  | Const
deriving DecidableEq

/-- One generic parameter definition: its global index and its kind. -/
structure GenericParamDef where
  index : Nat
  kind : GenericParamDefKind
deriving DecidableEq

/-- `ty::Generics` with the parent chain materialised: `parents` lists the
own-parameter lists of the strict ancestors, immediate parent first. -/
structure Generics where
  parents : List (List GenericParamDef)
  params : List GenericParamDef
deriving DecidableEq

/-- `Generics::parent_count`. -/
def Generics.parentCount (g : Generics) : Nat :=
  (g.parents.map List.length).sum

/-- `Generics::count() = parent_count + params.len()`. -/
def Generics.count (g : Generics) : Nat :=
  g.parentCount + g.params.length

/-- All parameter definitions in index order: outermost ancestor first,
then down the chain, then the item's own parameters. -/
def Generics.allParams (g : Generics) : List GenericParamDef :=
  g.parents.reverse.flatten ++ g.params

/-- rustc's invariant on `ty::Generics`: the `index` of each parameter is its
position in the flattened parameter list. -/
def Generics.wf (g : Generics) : Prop :=
  g.allParams.map GenericParamDef.index = List.range g.allParams.length

instance (g : Generics) : Decidable g.wf := by
  unfold Generics.wf; infer_instance

/-- `ty::Region`, reduced to the cases the collector distinguishes:
`ReEarlyBound` carries its parameter index, everything else is opaque to the
visitor. -/
inductive Region where
  | ReEarlyBound (index : Nat)
  | ReStatic
  | ReErased
deriving DecidableEq

/-- A generic term: types, regions-as-arguments and consts, merged the way
`ty::GenericArg` packs them.  `Adt` stands for any type former carrying a
substitution list, `Ref` for a type with a region and a subterm, `PrimTy`
for any leaf type without parameters. -/
inductive GTerm where
  | TyParam (index : Nat)
  | Adt (defId : Nat) (args : List GTerm)
  | Ref (r : Region) (pointee : GTerm)
  | PrimTy
  | LifetimeArg (r : Region)
  | ConstParam (index : Nat)
  | ConstValue

/-- The item bounds (`ty::PredicateKind` shapes the `match` in
`variance_of_opaque` distinguishes): trait clauses, projection clauses,
type-outlives clauses, and every other shape (visited whole). -/
inductive Predicate where
  | TraitPred (traitDefId : Nat) (substs : List GTerm)
  | ProjectionPred (substs : List GTerm) (itemDefId : Nat) (term : GTerm)
  | TypeOutlivesPred (ty : GTerm) (region : Region)
  | OtherPred (parts : List GTerm)

/-- Item kinds (`DefKind`), covering the kinds `variances_of` matches plus
representative others. -/
inductive DefKind where
  | Fn
  | AssocFn
  | Enum
  | Struct
  | Union
  | Variant
  | Ctor
  | OpaqueTy
  | ImplTraitPlaceholder
  | Mod
  | Trait
  | TyAlias
  | Static
deriving DecidableEq

/-- The queries of `TyCtxt` that the embedded functions consult.
`crate_variances` is the (abstract) solved crate-wide variance map,
`none` meaning "no entry for this item". -/
structure Tcx where
  generics_of : Nat → Generics
  def_kind : Nat → DefKind
  bound_explicit_item_bounds : Nat → List Predicate
  crate_variances : Nat → Option (List Variance)

/-- `OpaqueTypeLifetimeCollector::visit_region`: an early-bound region marks
its own slot `Invariant`; every other region kind is left alone
(`super_visit_with` finds no nested region inside a region). -/
def visit_region (r : Region) (v : List Variance) : List Variance :=
  match r with
  | Region.ReEarlyBound i => v.set i Variance.Invariant
  | _ => v

mutual
/-- `subst.visit_with(&mut collector)`: the type visitor reaches every region
inside a term, in structural order. -/
def visitGTerm : GTerm → List Variance → List Variance
  | GTerm.LifetimeArg r, v => visit_region r v
  | GTerm.Ref r p, v => visitGTerm p (visit_region r v)
  | GTerm.Adt _ args, v => visitGTermList args v
  | GTerm.TyParam _, v => v
  | GTerm.PrimTy, v => v
  | GTerm.ConstParam _, v => v
  | GTerm.ConstValue, v => v

/-- Visiting a substitution list, left to right. -/
def visitGTermList : List GTerm → List Variance → List Variance
  | [], v => v
  | t :: ts, v => visitGTermList ts (visitGTerm t v)
end

/-- Region substitution: an early-bound region is replaced by the region
packed at its index, kept unchanged when the argument list has no region
there. -/
def subst_region (s : List GTerm) (r : Region) : Region :=
  match r with
  | Region.ReEarlyBound i =>
    match s[i]? with
    | some (GTerm.LifetimeArg r2) => r2
    | _ => Region.ReEarlyBound i
  | _ => r

mutual
/-- `EarlyBinder::subst`: parameters are replaced by the argument stored at
their index (kind-mismatched or missing arguments leave the parameter in
place). -/
def substGTerm (s : List GTerm) : GTerm → GTerm
  | GTerm.TyParam i =>
    match s[i]? with
    | some (GTerm.LifetimeArg _) => GTerm.TyParam i
    | some (GTerm.ConstParam _) => GTerm.TyParam i
    | some GTerm.ConstValue => GTerm.TyParam i
    | some a => a
    | none => GTerm.TyParam i
  | GTerm.Adt d args => GTerm.Adt d (substGTermList s args)
  | GTerm.Ref r p => GTerm.Ref (subst_region s r) (substGTerm s p)
  | GTerm.PrimTy => GTerm.PrimTy
  | GTerm.LifetimeArg r => GTerm.LifetimeArg (subst_region s r)
  | GTerm.ConstParam i =>
    match s[i]? with
    | some (GTerm.ConstParam j) => GTerm.ConstParam j
    | some GTerm.ConstValue => GTerm.ConstValue
    | _ => GTerm.ConstParam i
  | GTerm.ConstValue => GTerm.ConstValue

/-- Substitution over an argument list. -/
def substGTermList (s : List GTerm) : List GTerm → List GTerm
  | [] => []
  | t :: ts => substGTerm s t :: substGTermList s ts
end

/-- Substitution over a predicate. -/
def substPred (s : List GTerm) : Predicate → Predicate
  | Predicate.TraitPred d args => Predicate.TraitPred d (substGTermList s args)
  | Predicate.ProjectionPred args d t =>
      Predicate.ProjectionPred (substGTermList s args) d (substGTerm s t)
  | Predicate.TypeOutlivesPred t r =>
      Predicate.TypeOutlivesPred (substGTerm s t) (subst_region s r)
  | Predicate.OtherPred parts => Predicate.OtherPred (substGTermList s parts)

/-- The per-bound dispatch of `variance_of_opaque`'s loop body: trait and
projection clauses visit `substs[1..]` (and the projection's term), a
type-outlives clause visits only the outlived region, every other shape is
visited whole. -/
def visitPred (p : Predicate) (v : List Variance) : List Variance :=
  match p with
  | Predicate.TraitPred _ args => visitGTermList (args.drop 1) v
  | Predicate.ProjectionPred args _ t => visitGTerm t (visitGTermList (args.drop 1) v)
  | Predicate.TypeOutlivesPred _ r => visit_region r v
  | Predicate.OtherPred parts => visitGTermList parts v

/-- The identity argument for one parameter, as
`InternalSubsts::identity_for_item` builds it. -/
def identityArg (p : GenericParamDef) : GTerm :=
  match p.kind with
  | GenericParamDefKind.Lifetime => GTerm.LifetimeArg (Region.ReEarlyBound p.index)
  | GenericParamDefKind.Ty => GTerm.TyParam p.index
  | GenericParamDefKind.Const => GTerm.ConstParam p.index

/-- `InternalSubsts::identity_for_item`: one identity argument per parameter,
in index order. -/
def identity_for_item (g : Generics) : List GTerm :=
  g.allParams.map identityArg

/-- The `for param in &generics.params` body of the parent-marking loop:
each lifetime parameter's slot is set to `Bivariant`. -/
def markLifetimes (ps : List GenericParamDef) (v : List Variance) : List Variance :=
  ps.foldl
    (fun v p =>
      match p.kind with
      | GenericParamDefKind.Lifetime => v.set p.index Variance.Bivariant
      | _ => v)
    v

/-- The `while let Some(def_id) = generics.parent` loop: every strict
ancestor's lifetime parameters are marked `Bivariant`. -/
def markAncestorLifetimes (chain : List (List GenericParamDef)) (v : List Variance) :
    List Variance :=
  chain.foldl (fun v ps => markLifetimes ps v) v

/-- The variance vector of `variance_of_opaque` before any bound is visited:
`repeat(Invariant).take(count)`, then the parent-lifetime marking loop. -/
def initialVariances (g : Generics) : List Variance :=
  markAncestorLifetimes g.parents (List.replicate g.count Variance.Invariant)

/-- `variance_of_opaque`: initialise, substitute the identity arguments into
each explicit item bound and fold the collector over the bounds. -/
def variance_of_opaque_ty (tcx : Tcx) (item_def_id : Nat) : List Variance :=
  let generics := tcx.generics_of item_def_id
  let id_substs := identity_for_item generics
  (tcx.bound_explicit_item_bounds item_def_id).foldl
    (fun v pred => visitPred (substPred id_substs pred) v)
    (initialVariances generics)

/-- The message of the `span_bug!` in `variances_of`. -/
def wrongItemKindMsg : String := "asked to compute variance for wrong kind of item"

/-- `variances_of`.  The `span_bug!` abort is embedded as `Except.error`. -/
def variances_of (tcx : Tcx) (item_def_id : Nat) : Except String (List Variance) :=
  if (tcx.generics_of item_def_id).count = 0 then
    Except.ok []
  else
    match tcx.def_kind item_def_id with
    | DefKind.Fn | DefKind.AssocFn | DefKind.Enum | DefKind.Struct
    | DefKind.Union | DefKind.Variant | DefKind.Ctor =>
      Except.ok ((tcx.crate_variances item_def_id).getD [])
    | DefKind.OpaqueTy | DefKind.ImplTraitPlaceholder =>
      Except.ok (variance_of_opaque_ty tcx item_def_id)
    | _ => Except.error wrongItemKindMsg

/-! Observation functions used to state properties of the code above. -/

/-- Write `val` into every listed slot, left to right. -/
def setAll (val : Variance) (idxs : List Nat) (v : List Variance) : List Variance :=
  idxs.foldl (fun v i => v.set i val) v

/-- The early-bound index of a region, if any. -/
def Region.earlyIdxs : Region → List Nat
  | Region.ReEarlyBound i => [i]
  | _ => []

mutual
/-- All early-bound region indices occurring in a term, in visit order. -/
def GTerm.earlyIdxs : GTerm → List Nat
  | GTerm.LifetimeArg r => r.earlyIdxs
  | GTerm.Ref r p => r.earlyIdxs ++ GTerm.earlyIdxs p
  | GTerm.Adt _ args => earlyIdxsList args
  | GTerm.TyParam _ => []
  | GTerm.PrimTy => []
  | GTerm.ConstParam _ => []
  | GTerm.ConstValue => []

/-- All early-bound region indices occurring in a term list, in visit order. -/
def earlyIdxsList : List GTerm → List Nat
  | [] => []
  | t :: ts => GTerm.earlyIdxs t ++ earlyIdxsList ts
end

/-- The early-bound region indices a predicate exposes to the collector,
following the dispatch of `visitPred`. -/
def predEarlyIdxs : Predicate → List Nat
  | Predicate.TraitPred _ args => earlyIdxsList (args.drop 1)
  | Predicate.ProjectionPred args _ t => earlyIdxsList (args.drop 1) ++ GTerm.earlyIdxs t
  | Predicate.TypeOutlivesPred _ r => r.earlyIdxs
  | Predicate.OtherPred parts => earlyIdxsList parts

/-- Indices of the lifetime parameters of one parameter list. -/
def lifetimeIdxs : List GenericParamDef → List Nat
  | [] => []
  | ⟨i, GenericParamDefKind.Lifetime⟩ :: ps => i :: lifetimeIdxs ps
  | ⟨_, GenericParamDefKind.Ty⟩ :: ps => lifetimeIdxs ps
  | ⟨_, GenericParamDefKind.Const⟩ :: ps => lifetimeIdxs ps

/-- Indices of all lifetime parameters of the strict ancestors. -/
def ancestorLifetimeIdxs : List (List GenericParamDef) → List Nat
  | [] => []
  | ps :: rest => lifetimeIdxs ps ++ ancestorLifetimeIdxs rest

/-- Indices of all parameters of one parameter list. -/
def paramIdxs (ps : List GenericParamDef) : List Nat :=
  ps.map GenericParamDef.index

/-! Concrete contexts used by counterexamples and witnesses. -/

/-- An opaque item whose generics are one inherited lifetime, one inherited
type, then an own lifetime, an own type and an own const parameter; its bound
list is a trait bound mentioning the inherited lifetime 0 and the own
lifetime 2, plus an outlives bound on the own lifetime 2. -/
def genericsA : Generics :=
  ⟨[[⟨0, GenericParamDefKind.Lifetime⟩, ⟨1, GenericParamDefKind.Ty⟩]],
   [⟨2, GenericParamDefKind.Lifetime⟩, ⟨3, GenericParamDefKind.Ty⟩,
    ⟨4, GenericParamDefKind.Const⟩]⟩

/-- The bound list of `tcxA`'s item. -/
def boundsA : List Predicate :=
  [Predicate.TraitPred 50
     [GTerm.PrimTy,
      GTerm.LifetimeArg (Region.ReEarlyBound 0),
      GTerm.Ref (Region.ReEarlyBound 2) GTerm.PrimTy],
   Predicate.TypeOutlivesPred GTerm.PrimTy (Region.ReEarlyBound 2)]

/-- A context whose every item is the opaque item described by `genericsA`
and `boundsA`. -/
def tcxA : Tcx :=
  ⟨fun _ => genericsA, fun _ => DefKind.OpaqueTy, fun _ => boundsA, fun _ => none⟩

/-- An opaque item with a single own lifetime parameter and an empty bound
list. -/
def tcxB : Tcx :=
  ⟨fun _ => ⟨[], [⟨0, GenericParamDefKind.Lifetime⟩]⟩,
   fun _ => DefKind.OpaqueTy, fun _ => [], fun _ => none⟩

/-- A module item (a kind `variances_of` does not accept) with no generic
parameters at all. -/
def tcxZero : Tcx :=
  ⟨fun _ => ⟨[], []⟩, fun _ => DefKind.Mod, fun _ => [], fun _ => none⟩

/-- A module item with one generic type parameter. -/
def tcxWrong : Tcx :=
  ⟨fun _ => ⟨[], [⟨0, GenericParamDefKind.Ty⟩]⟩,
   fun _ => DefKind.Mod, fun _ => [], fun _ => none⟩

/-- A function item with one generic type parameter and no entry in the
crate variance map. -/
def tcxFn : Tcx :=
  ⟨fun _ => ⟨[], [⟨0, GenericParamDefKind.Ty⟩]⟩,
   fun _ => DefKind.Fn, fun _ => [], fun _ => none⟩

/-- `tcxA` with a different crate variance map (used to observe that the
opaque path never reads that map). -/
def tcxAalt : Tcx :=
  ⟨fun _ => genericsA, fun _ => DefKind.OpaqueTy, fun _ => boundsA,
   fun _ => some [Variance.Covariant]⟩

/-- A term mentioning the early-bound regions 1 and 0. -/
def termC6 : GTerm :=
  GTerm.Ref (Region.ReEarlyBound 1) (GTerm.Adt 9 [GTerm.LifetimeArg (Region.ReEarlyBound 0)])

/-- A two-slot variance vector. -/
def vecC6 : List Variance := [Variance.Covariant, Variance.Bivariant]

end RustcVariance

namespace RustcLateLint

/-- The slice of `LateContext` that `with_lint_attrs` touches. -/
structure LateContext where
  last_node_with_lint_attrs : Nat
deriving DecidableEq

/-- The two attribute callbacks of a late lint pass.  A callback reads the
context and the attribute list and transforms the pass state `σ`. -/
structure LintCallbacks (σ : Type) where
  enter_lint_attrs : LateContext → List Nat → σ → σ
  exit_lint_attrs : LateContext → List Nat → σ → σ

/-- `LateContextAndPass`: the context together with the pass state. -/
structure LateContextAndPass (σ : Type) where
  context : LateContext
  pass : σ

/-- `LateContextAndPass::with_lint_attrs`: record the previous
`last_node_with_lint_attrs`, point it at `id`, run `enter_lint_attrs`, run
the nested visit `f`, run `exit_lint_attrs`, restore the recorded value.
`hirAttrs` stands for `tcx.hir().attrs`. -/
def with_lint_attrs {σ : Type} (hirAttrs : Nat → List Nat) (cb : LintCallbacks σ)
    (id : Nat) (f : LateContextAndPass σ → LateContextAndPass σ)
    (s : LateContextAndPass σ) : LateContextAndPass σ :=
  let attrs := hirAttrs id
  let prev := s.context.last_node_with_lint_attrs
  let cx1 : LateContext := { last_node_with_lint_attrs := id }
  let p1 := cb.enter_lint_attrs cx1 attrs s.pass
  let s2 := f ⟨cx1, p1⟩
  let p2 := cb.exit_lint_attrs s2.context attrs s2.pass
  ⟨{ last_node_with_lint_attrs := prev }, p2⟩

end RustcLateLint

namespace RustcVariance

/-! Basic facts about `setAll`. -/

theorem setAll_nil (val : Variance) (v : List Variance) : setAll val [] v = v := rfl

theorem setAll_cons (val : Variance) (i : Nat) (idxs : List Nat) (v : List Variance) :
    setAll val (i :: idxs) v = setAll val idxs (v.set i val) := rfl

theorem setAll_append (val : Variance) (a b : List Nat) (v : List Variance) :
    setAll val (a ++ b) v = setAll val b (setAll val a v) :=
  List.foldl_append _ _ a b

theorem length_setAll (val : Variance) (idxs : List Nat) (v : List Variance) :
    (setAll val idxs v).length = v.length := by
  induction idxs generalizing v with
  | nil => rfl
  | cons i idxs ih => rw [setAll_cons, ih, List.length_set]

theorem getElem?_setAll (val : Variance) (idxs : List Nat) (v : List Variance) (k : Nat) :
    (setAll val idxs v)[k]? =
      if k ∈ idxs ∧ k < v.length then some val else v[k]? := by
  induction idxs generalizing v with
  | nil => simp [setAll_nil]
  | cons i idxs ih =>
    rw [setAll_cons, ih, List.length_set]
    rcases eq_or_ne k i with h3 | h3
    · subst h3
      by_cases h2 : k < v.length
      · by_cases h1 : k ∈ idxs <;> simp [h1, h2, List.getElem?_set]
      · simp [h2, List.getElem?_set, List.getElem?_eq_none (Nat.le_of_not_lt h2)]
    · have hset : (v.set i val)[k]? = v[k]? := by
        rw [List.getElem?_set, if_neg (Ne.symm h3)]
      by_cases h1 : k ∈ idxs <;> simp [h1, h3, hset]

/-! The collector only ever writes `Invariant`, at the early-bound region
indices of what it visits. -/

theorem visit_region_eq (r : Region) (v : List Variance) :
    visit_region r v = setAll Variance.Invariant r.earlyIdxs v := by
  cases r <;> simp [visit_region, Region.earlyIdxs, setAll]

mutual
theorem visitGTerm_eq : ∀ (t : GTerm) (v : List Variance),
    visitGTerm t v = setAll Variance.Invariant (GTerm.earlyIdxs t) v
  | GTerm.LifetimeArg r, v => by
    rw [visitGTerm, GTerm.earlyIdxs, visit_region_eq]
  | GTerm.Ref r p, v => by
    rw [visitGTerm, GTerm.earlyIdxs, setAll_append, visit_region_eq, visitGTerm_eq p]
  | GTerm.Adt d args, v => by
    rw [visitGTerm, GTerm.earlyIdxs, visitGTermList_eq args]
  | GTerm.TyParam i, v => by rw [visitGTerm, GTerm.earlyIdxs]; rfl
  | GTerm.PrimTy, v => by rw [visitGTerm, GTerm.earlyIdxs]; rfl
  | GTerm.ConstParam i, v => by rw [visitGTerm, GTerm.earlyIdxs]; rfl
  | GTerm.ConstValue, v => by rw [visitGTerm, GTerm.earlyIdxs]; rfl

theorem visitGTermList_eq : ∀ (ts : List GTerm) (v : List Variance),
    visitGTermList ts v = setAll Variance.Invariant (earlyIdxsList ts) v
  | [], v => by rw [visitGTermList, earlyIdxsList]; rfl
  | t :: ts, v => by
    rw [visitGTermList, earlyIdxsList, setAll_append, visitGTerm_eq t, visitGTermList_eq ts]
end

theorem visitPred_eq (p : Predicate) (v : List Variance) :
    visitPred p v = setAll Variance.Invariant (predEarlyIdxs p) v := by
  cases p <;>
    simp [visitPred, predEarlyIdxs, visitGTerm_eq, visitGTermList_eq, setAll_append,
      visit_region_eq]

/-! The parent-marking loop writes `Bivariant` at exactly the ancestor
lifetime indices. -/

theorem markLifetimes_eq (ps : List GenericParamDef) (v : List Variance) :
    markLifetimes ps v = setAll Variance.Bivariant (lifetimeIdxs ps) v := by
  induction ps generalizing v with
  | nil => rfl
  | cons p ps ih =>
    obtain ⟨i, kind⟩ := p
    show markLifetimes ps _ = _
    cases kind <;> simp [lifetimeIdxs, ih, setAll_cons]

theorem markAncestorLifetimes_eq (chain : List (List GenericParamDef)) (v : List Variance) :
    markAncestorLifetimes chain v = setAll Variance.Bivariant (ancestorLifetimeIdxs chain) v := by
  induction chain generalizing v with
  | nil => rfl
  | cons ps rest ih =>
    have h0 : markAncestorLifetimes (ps :: rest) v =
        markAncestorLifetimes rest (markLifetimes ps v) := rfl
    rw [h0, ancestorLifetimeIdxs, setAll_append, markLifetimes_eq, ih]

theorem length_allParams (g : Generics) : g.allParams.length = g.count := by
  simp [Generics.allParams, Generics.count, Generics.parentCount, List.length_flatten,
    List.map_reverse, List.sum_reverse, Nat.add_comm]

theorem length_initialVariances (g : Generics) : (initialVariances g).length = g.count := by
  rw [initialVariances, markAncestorLifetimes_eq, length_setAll, List.length_replicate]

theorem getElem?_initialVariances (g : Generics) (k : Nat) (hk : k < g.count) :
    (initialVariances g)[k]? =
      some (if k ∈ ancestorLifetimeIdxs g.parents then Variance.Bivariant
            else Variance.Invariant) := by
  rw [initialVariances, markAncestorLifetimes_eq, getElem?_setAll]
  by_cases h : k ∈ ancestorLifetimeIdxs g.parents <;>
    simp [h, hk, List.getElem?_replicate]

/-! Preservation through the bound-visiting fold. -/

theorem length_visitPred (p : Predicate) (v : List Variance) :
    (visitPred p v).length = v.length := by
  rw [visitPred_eq, length_setAll]

theorem length_foldVisit (s : List GTerm) (preds : List Predicate) (v : List Variance) :
    (preds.foldl (fun v pred => visitPred (substPred s pred) v) v).length = v.length := by
  induction preds generalizing v with
  | nil => rfl
  | cons p preds ih => rw [List.foldl_cons, ih, length_visitPred]

theorem visitPred_preserves_invariant (p : Predicate) (v : List Variance) (k : Nat)
    (h : v[k]? = some Variance.Invariant) :
    (visitPred p v)[k]? = some Variance.Invariant := by
  rw [visitPred_eq, getElem?_setAll]
  split <;> simp [h]

theorem foldVisit_preserves_invariant (s : List GTerm) (preds : List Predicate)
    (v : List Variance) (k : Nat) (h : v[k]? = some Variance.Invariant) :
    (preds.foldl (fun v pred => visitPred (substPred s pred) v) v)[k]? =
      some Variance.Invariant := by
  induction preds generalizing v with
  | nil => exact h
  | cons p preds ih =>
    rw [List.foldl_cons]
    exact ih _ (visitPred_preserves_invariant _ _ _ h)

/-! On well-formed generics (parameter indices are positions) the identity
substitution leaves every term unchanged. -/

theorem allParams_getElem? (g : Generics) (h : g.wf) (i : Nat)
    (hi : i < g.allParams.length) :
    ∃ p : GenericParamDef, g.allParams[i]? = some p ∧ p.index = i := by
  have hmap := congrArg (fun l => l[i]?) h
  simp only [List.getElem?_map, List.getElem?_range hi] at hmap
  cases hp : g.allParams[i]? with
  | none => rw [hp] at hmap; simp at hmap
  | some p =>
    rw [hp] at hmap
    exact ⟨p, rfl, by simpa using hmap⟩

theorem identity_for_item_getElem? (g : Generics) (h : g.wf) (i : Nat) :
    (identity_for_item g)[i]? = none ∨
      ∃ p : GenericParamDef,
        (identity_for_item g)[i]? = some (identityArg p) ∧ p.index = i := by
  by_cases hi : i < g.allParams.length
  · right
    obtain ⟨p, hp, hidx⟩ := allParams_getElem? g h i hi
    refine ⟨p, ?_, hidx⟩
    rw [identity_for_item, List.getElem?_map, hp]
    rfl
  · left
    rw [identity_for_item]
    exact List.getElem?_eq_none
      (by simpa [List.length_map] using Nat.le_of_not_lt hi)

theorem subst_region_identity (g : Generics) (h : g.wf) (r : Region) :
    subst_region (identity_for_item g) r = r := by
  cases r with
  | ReEarlyBound i =>
    rcases identity_for_item_getElem? g h i with hn | ⟨p, hp, hidx⟩
    · simp [subst_region, hn]
    · cases hk : p.kind <;> simp [subst_region, hp, identityArg, hk, hidx]
  | ReStatic => rfl
  | ReErased => rfl

mutual
theorem substGTerm_identity (g : Generics) (h : g.wf) : ∀ (t : GTerm),
    substGTerm (identity_for_item g) t = t
  | GTerm.TyParam i => by
    rcases identity_for_item_getElem? g h i with hn | ⟨p, hp, hidx⟩
    · simp [substGTerm, hn]
    · cases hk : p.kind <;> simp [substGTerm, hp, identityArg, hk, hidx]
  | GTerm.Adt d args => by
    rw [substGTerm, substGTermList_identity g h args]
  | GTerm.Ref r p => by
    rw [substGTerm, subst_region_identity g h, substGTerm_identity g h p]
  | GTerm.PrimTy => rfl
  | GTerm.LifetimeArg r => by rw [substGTerm, subst_region_identity g h]
  | GTerm.ConstParam i => by
    rcases identity_for_item_getElem? g h i with hn | ⟨p, hp, hidx⟩
    · simp [substGTerm, hn]
    · cases hk : p.kind <;> simp [substGTerm, hp, identityArg, hk, hidx]
  | GTerm.ConstValue => rfl

theorem substGTermList_identity (g : Generics) (h : g.wf) : ∀ (ts : List GTerm),
    substGTermList (identity_for_item g) ts = ts
  | [] => rfl
  | t :: ts => by
    rw [substGTermList, substGTerm_identity g h t, substGTermList_identity g h ts]
end

theorem substPred_identity (g : Generics) (h : g.wf) (p : Predicate) :
    substPred (identity_for_item g) p = p := by
  cases p <;>
    simp [substPred, substGTerm_identity g h, substGTermList_identity g h,
      subst_region_identity g h]

/-! Index bookkeeping derived from well-formedness. -/

theorem lifetimeIdxs_subset (ps : List GenericParamDef) :
    ∀ k ∈ lifetimeIdxs ps, k ∈ paramIdxs ps := by
  induction ps with
  | nil => simp [lifetimeIdxs]
  | cons p ps ih =>
    obtain ⟨i, kind⟩ := p
    intro k hk
    cases kind <;> simp only [lifetimeIdxs, List.mem_cons] at hk <;>
      simp only [paramIdxs, List.map_cons, List.mem_cons]
    · rcases hk with hk | hk
      · exact Or.inl hk
      · exact Or.inr (ih k hk)
    · exact Or.inr (ih k hk)
    · exact Or.inr (ih k hk)

theorem mem_ancestorLifetimeIdxs (chain : List (List GenericParamDef)) (k : Nat) :
    k ∈ ancestorLifetimeIdxs chain ↔ ∃ ps ∈ chain, k ∈ lifetimeIdxs ps := by
  induction chain with
  | nil => simp [ancestorLifetimeIdxs]
  | cons ps rest ih => simp [ancestorLifetimeIdxs, List.mem_append, ih]

theorem own_lifetime_facts (g : Generics) (h : g.wf) (k : Nat)
    (hk : k ∈ lifetimeIdxs g.params) :
    k < g.count ∧ k ∉ ancestorLifetimeIdxs g.parents := by
  have hown : k ∈ g.params.map GenericParamDef.index := lifetimeIdxs_subset g.params k hk
  have hsplitMap : g.allParams.map GenericParamDef.index =
      g.parents.reverse.flatten.map GenericParamDef.index ++
        g.params.map GenericParamDef.index := by
    rw [Generics.allParams, List.map_append]
  have hlt : k < g.count := by
    have : k ∈ g.allParams.map GenericParamDef.index := by
      rw [hsplitMap]; exact List.mem_append_right _ hown
    rw [h, List.mem_range, length_allParams] at this
    exact this
  refine ⟨hlt, ?_⟩
  intro hanc
  have hnodup : (g.allParams.map GenericParamDef.index).Nodup := by
    rw [h]; exact List.nodup_range _
  rw [hsplitMap, List.nodup_append] at hnodup
  obtain ⟨ps, hps, hkps⟩ := (mem_ancestorLifetimeIdxs g.parents k).mp hanc
  have hinL : k ∈ g.parents.reverse.flatten.map GenericParamDef.index := by
    obtain ⟨p, hpps, hpidx⟩ := List.mem_map.mp (lifetimeIdxs_subset ps k hkps)
    exact List.mem_map.mpr
      ⟨p, List.mem_flatten.mpr ⟨ps, List.mem_reverse.mpr hps, hpps⟩, hpidx⟩
  exact absurd hown (hnodup.2.2 hinL)

end RustcVariance

namespace RustcVariance

/-- C1 (counterexample): an opaque item with a single own lifetime parameter,
no explicit outlives bound and an empty bound list; `variance_of_opaque`
leaves the own lifetime at `Invariant`, not `Bivariant` as the claim
states. -/
theorem c1_counterexample :
    (tcxB.bound_explicit_item_bounds 0 = [] ∧
      (tcxB.generics_of 0).params = [⟨0, GenericParamDefKind.Lifetime⟩] ∧
      (tcxB.generics_of 0).parents = []) ∧
    variance_of_opaque_ty tcxB 0 = [Variance.Invariant] ∧
    variance_of_opaque_ty tcxB 0 ≠ [Variance.Bivariant] := by
  refine ⟨⟨rfl, rfl, rfl⟩, by decide, by decide⟩

/-- C1 (amended): on well-formed generics, `variance_of_opaque` assigns every
own lifetime parameter of the opaque item the value `Invariant` — whether or
not the bound list mentions it, and in particular when it is mentioned via an
outlives bound. -/
theorem c1_own_lifetime_invariant (tcx : Tcx) (i k : Nat)
    (hwf : (tcx.generics_of i).wf)
    (hk : k ∈ lifetimeIdxs (tcx.generics_of i).params) :
    (variance_of_opaque_ty tcx i)[k]? = some Variance.Invariant := by
  obtain ⟨hlt, hnot⟩ := own_lifetime_facts (tcx.generics_of i) hwf k hk
  simp only [variance_of_opaque_ty]
  apply foldVisit_preserves_invariant
  rw [getElem?_initialVariances _ k hlt, if_neg hnot]

/-- C1 (witness): the amended statement at the concrete item of
`c1_counterexample`. -/
theorem c1_own_lifetime_invariant_witness :
    (variance_of_opaque_ty tcxB 0)[0]? = some Variance.Invariant :=
  c1_own_lifetime_invariant tcxB 0 0 (by decide) (by decide)

/-- C2 (counterexample): a module item (kind outside the accepted set) with
zero generic parameters; `variances_of` returns the empty vector instead of
aborting. -/
theorem c2_counterexample :
    tcxZero.def_kind 0 = DefKind.Mod ∧
    DefKind.Mod ∉ [DefKind.Fn, DefKind.AssocFn, DefKind.Enum, DefKind.Struct,
      DefKind.Union, DefKind.Variant, DefKind.Ctor, DefKind.OpaqueTy,
      DefKind.ImplTraitPlaceholder] ∧
    variances_of tcxZero 0 = Except.ok [] :=
  ⟨rfl, by decide, rfl⟩

/-- C2 (amended): for an item of a kind outside the accepted set that has at
least one generic parameter, `variances_of` aborts with the
wrong-kind-of-item diagnostic and never returns a variance vector. -/
theorem c2_wrong_kind_aborts (tcx : Tcx) (i : Nat)
    (h1 : (tcx.generics_of i).count ≠ 0)
    (h2 : tcx.def_kind i ∉ [DefKind.Fn, DefKind.AssocFn, DefKind.Enum,
      DefKind.Struct, DefKind.Union, DefKind.Variant, DefKind.Ctor,
      DefKind.OpaqueTy, DefKind.ImplTraitPlaceholder]) :
    variances_of tcx i = Except.error wrongItemKindMsg := by
  cases hk : tcx.def_kind i <;>
    first
    | exact absurd (by rw [hk]; decide) h2
    | simp [variances_of, h1, hk]

/-- C2 (witness): the amended statement at a module item with one type
parameter. -/
theorem c2_wrong_kind_aborts_witness :
    variances_of tcxWrong 0 = Except.error wrongItemKindMsg :=
  c2_wrong_kind_aborts tcxWrong 0 (by decide) (by decide)

/-- C3: an item with zero generic parameters yields the empty variance
vector, for every crate variance map — so the crate-wide fixpoint result is
never consulted. -/
theorem c3_zero_generics_empty (gof : Nat → Generics) (dk : Nat → DefKind)
    (eib : Nat → List Predicate) (cvs : Nat → Option (List Variance)) (i : Nat)
    (h : (gof i).count = 0) :
    variances_of ⟨gof, dk, eib, cvs⟩ i = Except.ok [] := by
  simp [variances_of, h]

/-- C3 (witness): the zero-parameter module item. -/
theorem c3_zero_generics_empty_witness : variances_of tcxZero 0 = Except.ok [] :=
  c3_zero_generics_empty (fun _ => ⟨[], []⟩) (fun _ => DefKind.Mod) (fun _ => [])
    (fun _ => none) 0 (by decide)

/-- C4: before any bound is visited, slot `k` of the variance vector holds
`Bivariant` exactly when `k` is the index of an ancestor (inherited) lifetime
parameter, and `Invariant` otherwise — so own type, const and lifetime
parameters start `Invariant`, and inherited type/const parameters are not set
to `Bivariant`. -/
theorem c4_initialization (g : Generics) (k : Nat) (hk : k < g.count) :
    (initialVariances g)[k]? =
      some (if k ∈ ancestorLifetimeIdxs g.parents then Variance.Bivariant
            else Variance.Invariant) :=
  getElem?_initialVariances g k hk

/-- C4 (witness): at `genericsA`, slot 0 (an inherited lifetime). -/
theorem c4_initialization_witness :
    (initialVariances genericsA)[0]? =
      some (if 0 ∈ ancestorLifetimeIdxs genericsA.parents then Variance.Bivariant
            else Variance.Invariant) :=
  c4_initialization genericsA 0 (by decide)

/-- C5: on well-formed generics the identity substitution leaves the bound
list unchanged, and `variance_of_opaque` equals the fold that dispatches on
each bound: trait and projection bounds visit their substitution list minus
the first (self) argument (plus the projected term), an outlives bound
visits only the outlived region, and every other bound shape is visited
whole. -/
theorem c5_bound_dispatch (tcx : Tcx) (i : Nat)
    (hwf : (tcx.generics_of i).wf) :
    variance_of_opaque_ty tcx i =
      (tcx.bound_explicit_item_bounds i).foldl
        (fun v pred =>
          match pred with
          | Predicate.TraitPred _ args => visitGTermList (args.drop 1) v
          | Predicate.ProjectionPred args _ t =>
              visitGTerm t (visitGTermList (args.drop 1) v)
          | Predicate.TypeOutlivesPred _ r => visit_region r v
          | Predicate.OtherPred parts => visitGTermList parts v)
        (initialVariances (tcx.generics_of i)) := by
  simp only [variance_of_opaque_ty]
  apply List.foldl_ext
  intro v pred hpred
  rw [substPred_identity _ hwf pred]
  cases pred <;> rfl

/-- C5 (witness): the dispatch equality at the concrete opaque item `tcxA`,
whose bound list holds a trait bound and an outlives bound. -/
theorem c5_bound_dispatch_witness :
    variance_of_opaque_ty tcxA 0 =
      (tcxA.bound_explicit_item_bounds 0).foldl
        (fun v pred =>
          match pred with
          | Predicate.TraitPred _ args => visitGTermList (args.drop 1) v
          | Predicate.ProjectionPred args _ t =>
              visitGTerm t (visitGTermList (args.drop 1) v)
          | Predicate.TypeOutlivesPred _ r => visit_region r v
          | Predicate.OtherPred parts => visitGTermList parts v)
        (initialVariances (tcxA.generics_of 0)) :=
  c5_bound_dispatch tcxA 0 (by decide)

/-- C6: the collector's only effect on the variance vector is to write
`Invariant` at slots indexed by the early-bound regions it encounters: every
slot is either unchanged or set to `Invariant` (and then its index is the
index of an early-bound region occurring in the visited term), and every
in-range slot indexed by such a region is set to `Invariant`. -/
theorem c6_visitor_sole_effect (t : GTerm) (v : List Variance) (k : Nat) :
    ((visitGTerm t v)[k]? = v[k]? ∨
      ((visitGTerm t v)[k]? = some Variance.Invariant ∧ k ∈ GTerm.earlyIdxs t)) ∧
    (k ∈ GTerm.earlyIdxs t → k < v.length →
      (visitGTerm t v)[k]? = some Variance.Invariant) := by
  constructor
  · rw [visitGTerm_eq, getElem?_setAll]
    by_cases h : k ∈ GTerm.earlyIdxs t ∧ k < v.length
    · exact Or.inr ⟨by rw [if_pos h], h.1⟩
    · exact Or.inl (by rw [if_neg h])
  · intro h1 h2
    rw [visitGTerm_eq, getElem?_setAll, if_pos ⟨h1, h2⟩]

/-- C6 (witness): visiting `termC6` sets slot 1 of `vecC6` to `Invariant`. -/
theorem c6_visitor_sole_effect_witness :
    (visitGTerm termC6 vecC6)[1]? = some Variance.Invariant :=
  (c6_visitor_sole_effect termC6 vecC6 1).2 (by decide) (by decide)

/-- C7: for an opaque item with at least one generic parameter,
`variances_of` returns exactly `variance_of_opaque`'s result, and the crate
variance map is never consulted (the result is the same under every map). -/
theorem c7_opaque_rule (gof : Nat → Generics) (dk : Nat → DefKind)
    (eib : Nat → List Predicate) (cvs cvs2 : Nat → Option (List Variance))
    (i : Nat)
    (hkind : dk i = DefKind.OpaqueTy ∨ dk i = DefKind.ImplTraitPlaceholder)
    (h : (gof i).count ≠ 0) :
    variances_of ⟨gof, dk, eib, cvs⟩ i =
      Except.ok (variance_of_opaque_ty ⟨gof, dk, eib, cvs2⟩ i) := by
  rcases hkind with hk | hk <;> simp [variances_of, h, hk] <;> rfl

/-- C7 (witness): the opaque item `tcxA` against the crate map of
`tcxAalt`. -/
theorem c7_opaque_rule_witness :
    variances_of tcxA 0 = Except.ok (variance_of_opaque_ty tcxAalt 0) :=
  c7_opaque_rule (fun _ => genericsA) (fun _ => DefKind.OpaqueTy)
    (fun _ => boundsA) (fun _ => none) (fun _ => some [Variance.Covariant]) 0
    (Or.inl rfl) (by decide)

/-- C8: an item of an accepted non-opaque kind with at least one generic
parameter and no entry in the crate variance map resolves to the empty
variance vector. -/
theorem c8_unconstrained_empty (gof : Nat → Generics) (dk : Nat → DefKind)
    (eib : Nat → List Predicate) (cvs : Nat → Option (List Variance)) (i : Nat)
    (h1 : (gof i).count ≠ 0)
    (h2 : dk i ∈ [DefKind.Fn, DefKind.AssocFn, DefKind.Enum, DefKind.Struct,
      DefKind.Union, DefKind.Variant, DefKind.Ctor])
    (h3 : cvs i = none) :
    variances_of ⟨gof, dk, eib, cvs⟩ i = Except.ok [] := by
  simp only [List.mem_cons, List.not_mem_nil, or_false] at h2
  rcases h2 with hk | hk | hk | hk | hk | hk | hk <;>
    simp [variances_of, h1, hk, h3]

/-- C8 (witness): the function item with one type parameter and no crate map
entry. -/
theorem c8_unconstrained_empty_witness : variances_of tcxFn 0 = Except.ok [] :=
  c8_unconstrained_empty (fun _ => ⟨[], [⟨0, GenericParamDefKind.Ty⟩]⟩)
    (fun _ => DefKind.Fn) (fun _ => []) (fun _ => none) 0
    (by decide) (by decide) (by decide)

/-- C10: the vector `variance_of_opaque` returns has exactly one slot per
generic parameter of the item (own and inherited). -/
theorem c10_length_eq_count (tcx : Tcx) (i : Nat) :
    (variance_of_opaque_ty tcx i).length = (tcx.generics_of i).count := by
  simp only [variance_of_opaque_ty]
  rw [length_foldVisit, length_initialVariances]

end RustcVariance

namespace RustcLateLint

/-- C9: `with_lint_attrs` runs `enter_lint_attrs` before the nested visit
(whose context carries `last_node_with_lint_attrs = id`) and
`exit_lint_attrs` after it, and on return `last_node_with_lint_attrs` equals
the value it held before the call, whatever the nested visit did. -/
theorem c9_lint_attrs_scoped {σ : Type} (hirAttrs : Nat → List Nat)
    (cb : LintCallbacks σ) (id : Nat)
    (f : LateContextAndPass σ → LateContextAndPass σ) (s : LateContextAndPass σ) :
    (with_lint_attrs hirAttrs cb id f s).context.last_node_with_lint_attrs =
      s.context.last_node_with_lint_attrs ∧
    (with_lint_attrs hirAttrs cb id f s).pass =
      cb.exit_lint_attrs
        (f ⟨⟨id⟩, cb.enter_lint_attrs ⟨id⟩ (hirAttrs id) s.pass⟩).context
        (hirAttrs id)
        (f ⟨⟨id⟩, cb.enter_lint_attrs ⟨id⟩ (hirAttrs id) s.pass⟩).pass :=
  ⟨rfl, rfl⟩

end RustcLateLint
